import Mathlib

/-!
# Verification of the yapconf configuration-resolution engine

A shallow embedding, in Lean 4, of the parts of the `yapconf` Python package
(src/yapconf/) that the verified claims are about:

* the Python value model as the inductive `PyVal` (dictionaries are
  association lists in declaration order, as Python dicts are ordered);
* `yapconf.flatten` (src/yapconf/__init__.py);
* the scalar/boolean item resolution algorithm of
  `YapconfItem.get_config_value`, `_find_label_and_override`,
  `_in_environment`, `convert_config_value` and `_validate_value`
  (src/yapconf/items.py);
* the migration primitives `_search_config_for_fq_name`,
  `_search_config_for_possible_names` and `_update_config`, and the
  per-item loop of `YapconfSpec.migrate_config_file` (src/yapconf/spec.py)
  restricted to top-level scalar items;
* the schema compiler `from_specification` / `_generate_item` /
  `_get_item_children` and the construction-time validation `_validate`,
  together with `YapconfSpec._validate_specification`;
* the parser-registration methods `YapconfBoolItem.add_argument` and
  `YapconfListItem.add_argument`, modelled as state transformers over the
  item (the argparse parser itself is an external collaborator and is
  modelled as the list of registrations made on it).

Scoping notes, stated once here: Python floating point (`float`/`complex`
item types) is outside the embedding; the error values carry only the
exception class (and for `YapconfItemNotFound` the fully qualified name of
the item), not the formatted message text; environment-variable and CLI
name *derivation* (`_setup_env_name`, `yapconf.change_case`) is not
modelled — items carry their already-derived environment names, which is
all the claims use.
-/

set_option autoImplicit false

namespace Yapconf

/-- A Python value as yapconf manipulates them: `None`, strings, integers,
booleans, lists, and (ordered) dictionaries with string keys, embedded as
association lists in declaration order. -/
inductive PyVal where
  | none
  | str (s : String)
  | int (n : Int)
  | bool (b : Bool)
  | list (xs : List PyVal)
  | dict (entries : List (String × PyVal))

/-- Dictionary lookup (`d[k]` / `k in d`): the first binding of the key in
the association list. A Python dict never holds a key twice, so for values
that come from Python the first binding is the only one. -/
def lookupE : List (String × PyVal) → String → Option PyVal
  | [], _ => Option.none
  | (k, v) :: rest, key => if k = key then some v else lookupE rest key

/-- `value is None`. -/
def isNoneV : PyVal → Bool
  | .none => true
  | _ => false

/-- Python `==` on embedded values: numeric cross-type equality identifies
`True` with `1` and `False` with `0`; lists compare elementwise; dicts
compare as key-value mappings (length plus per-key lookup), ignoring
order. -/
def pyEq : PyVal → PyVal → Bool
  | .none, .none => true
  | .str s, .str t => s = t
  | .int m, .int n => m = n
  | .bool b, .bool c => b = c
  | .int m, .bool c => m = (if c then (1 : Int) else 0)
  | .bool b, .int n => (if b then (1 : Int) else 0) = n
  | .list xs, .list ys => pyEqList xs ys
  | .dict d1, .dict d2 => d1.length = d2.length && pyEqEntries d1 d2
  | _, _ => false
where
  /-- Elementwise list equality (CPython compares lengths, then elements). -/
  pyEqList : List PyVal → List PyVal → Bool
    | [], [] => true
    | x :: xs, y :: ys => pyEq x y && pyEqList xs ys
    | _, _ => false
  /-- Every key of the first dict is in the second with an equal value. -/
  pyEqEntries : List (String × PyVal) → List (String × PyVal) → Bool
    | [], _ => true
    | (k, v) :: rest, d2 =>
        (match lookupE d2 k with
         | some w => pyEq v w
         | Option.none => false) && pyEqEntries rest d2

/-- Python `x in xs` over a list/tuple of values: membership by `==`. -/
def pyMem (v : PyVal) (xs : List PyVal) : Bool :=
  xs.any fun x => pyEq v x

/-- Python truthiness (`if value:`): `None`, `''`, `0`, `False` and empty
containers are falsy. -/
def pyTruthy : PyVal → Bool
  | .none => false
  | .str s => s ≠ ""
  | .int n => n ≠ 0
  | .bool b => b
  | .list xs => !xs.isEmpty
  | .dict d => !d.isEmpty


/-- Python `str.lower()` restricted to basic latin letters (all the
claims\x27 strings are ASCII), character by character. Structural, unlike
`String.toLower`, so that concrete runs reduce definitionally. -/
def pyLower (s : String) : String :=
  ⟨s.data.map Char.toLower⟩

/-- Whitespace stripping as Python `int()` performs on string input. -/
def trimChars (l : List Char) : List Char :=
  ((l.dropWhile Char.isWhitespace).reverse.dropWhile Char.isWhitespace).reverse

/-- A nonempty run of decimal digits to a natural number. -/
def digitsToNat (acc : Nat) : List Char → Option Nat
  | [] => some acc
  | c :: rest =>
      if c.isDigit then digitsToNat (acc * 10 + (c.toNat - 48)) rest
      else Option.none

/-- Python `int(s)` on a string: optional sign, decimal digits, surrounding
whitespace allowed (digit-group underscores, other bases etc. are not
modelled — no claim exercises them). -/
def parsePyInt (s : String) : Option Int :=
  match trimChars s.data with
  | [] => Option.none
  | c :: rest =>
      if c = Char.ofNat 45 then
        match rest with
        | [] => Option.none
        | l => (digitsToNat 0 l).map fun n => -(n : Int)
      else if c = Char.ofNat 43 then
        match rest with
        | [] => Option.none
        | l => (digitsToNat 0 l).map fun n => (n : Int)
      else (digitsToNat 0 (c :: rest)).map fun n => (n : Int)

/-- Python `s.split(sep)` for a single-character separator, foldr-style:
every occurrence of the separator opens a new segment. -/
def splitChar (c : Char) : List Char → List (List Char)
  | [] => [[]]
  | a :: rest =>
      let r := splitChar c rest
      if a = c then [] :: r
      else
        match r with
        | [] => [[a]]
        | seg :: segs => (a :: seg) :: segs

/-- Python `s.split(sep)`: structural (thus definitionally computable) for
a one-character separator, which every claim uses; other separators go
through `String.splitOn`, which agrees with Python on nonempty
separators. -/
def pySplit (sep s : String) : List String :=
  match sep.data with
  | [c] => (splitChar c s.data).map fun l => ⟨l⟩
  | _ => s.splitOn sep

/-- Python `repr` of an embedded value, used only through `pyStr` below for
container values. Strings are always rendered with single quotes (CPython
switches quote style for strings containing a quote; no claim exercises
this). -/
def pyRepr : PyVal → String
  | .none => "None"
  | .str s => "\x27" ++ s ++ "\x27"
  | .int n => toString n
  | .bool true => "True"
  | .bool false => "False"
  | .list xs => "[" ++ String.intercalate ", " (pyReprList xs) ++ "]"
  | .dict d => "\x7b" ++ String.intercalate ", " (pyReprEntries d) ++ "\x7d"
where
  pyReprList : List PyVal → List String
    | [] => []
    | x :: rest => pyRepr x :: pyReprList rest
  pyReprEntries : List (String × PyVal) → List String
    | [] => []
    | (k, v) :: rest => ("\x27" ++ k ++ "\x27: " ++ pyRepr v) :: pyReprEntries rest

/-- Python `str(value)`: identity on strings, `repr` otherwise. -/
def pyStr : PyVal → String
  | .str s => s
  | v => pyRepr v

/-- Python `int(value)` as `convert_config_value` uses it for `int`/`long`
items: ints pass through, booleans become 0/1, strings are parsed (leading
and trailing whitespace stripped), everything else is a
`TypeError`/`ValueError`, which the caller turns into a
`YapconfValueError`. `Option.none` is the failure case. -/
def pyToInt : PyVal → Option Int
  | .int n => some n
  | .bool b => some (if b then 1 else 0)
  | .str s => parsePyInt s
  | _ => Option.none

/-! ## `yapconf.flatten` (src/yapconf/__init__.py, lines 256-288) -/

/-- The key built for entry `k` under accumulated `prefix`:
`prefix + separator + key if prefix else key`. -/
def joinKey (sep pre k : String) : String :=
  if pre = "" then k else pre ++ sep ++ k

mutual

/-- `yapconf.flatten`: nested dicts contribute their flattened entries under
the joined key, other values are stored at the joined key (lists via
`flatValue`). Python builds an ordinary dict, where a later assignment to
the same key wins; in this association-list embedding, entries produced by
later input entries are placed first, so first-match `lookupE` sees exactly
what the Python dict holds. -/
def flatten (sep pre : String) (entries : List (String × PyVal)) :
    List (String × PyVal) :=
  match entries with
  | [] => []
  | (k, v) :: rest =>
    flatten sep pre rest ++
      (match v with
       | .dict d => flatten sep (joinKey sep pre k) d
       | v => [(joinKey sep pre k, flatValue sep (joinKey sep pre k) v)])
termination_by structural entries

/-- The value `flatten` stores for a non-dict entry: a list has each of its
elements transformed by `flatElems`, every other value is untouched. -/
def flatValue (sep newKey : String) (v : PyVal) : PyVal :=
  match v with
  | .list xs => .list (flatElems sep newKey xs)
  | v => v
termination_by structural v

/-- The per-element transform of a list value: each dict element is
flattened independently (with the list\x27s own joined key as the prefix,
as the source passes `new_key`), scalar elements are left untouched. -/
def flatElems (sep newKey : String) (xs : List PyVal) : List PyVal :=
  match xs with
  | [] => []
  | x :: rest =>
      (match x with
       | .dict d => .dict (flatten sep newKey d)
       | other => other) :: flatElems sep newKey rest
termination_by structural xs

end

/-! ## Items (src/yapconf/items.py)

`Item` carries the attributes of a constructed `YapconfItem` that the
resolution and migration algorithms read. `item_type` doubles as the class
tag: the schema compiler (`_generate_item`) constructs `YapconfBoolItem`
exactly for declared type `bool`, `YapconfListItem` for `list` and
`YapconfDictItem` for `dict`, so on compiled items virtual dispatch and
dispatch on `item_type` agree. `prefixName` embeds `self.prefix`. -/

structure Item where
  name : String
  item_type : String
  default : PyVal := .none
  required : Bool := true
  env_name : Option String := Option.none
  alt_env_names : List String := []
  choices : Option (List PyVal) := Option.none
  validator : Option (PyVal → Bool) := Option.none
  previous_names : List String := []
  previous_defaults : List PyVal := []
  separator : String := "."
  prefixName : Option String := Option.none
  cli_expose : Bool := true

/-- `self.fq_name`: `separator.join([prefix, name])` when a prefix is set,
else `name`. -/
def Item.fq_name (item : Item) : String :=
  match item.prefixName with
  | some p => p ++ item.separator ++ item.name
  | Option.none => item.name

/-- `all_env_names`: `[env_name] + alt_env_names`, or `[]` when `env_name`
is `None`. -/
def Item.all_env_names (item : Item) : List String :=
  match item.env_name with
  | some n => n :: item.alt_env_names
  | Option.none => []

/-- The per-name test of `_in_environment`: the name is present with a
value that `is not None` and `!= ''`. -/
def envPresent (info : List (String × PyVal)) (n : String) : Bool :=
  match lookupE info n with
  | some v => !isNoneV v && !pyEq v (.str "")
  | Option.none => false

/-- `YapconfItem._in_environment` (lines 431-439). -/
def Item.inEnvironment (item : Item) (info : List (String × PyVal)) : Bool :=
  item.all_env_names.any (envPresent info)

/-- Whether one override entry provides a value for the item: the branch
condition of `_find_label_and_override` for a single `(label, info)` pair —
for the `ENVIRONMENT` label, `_in_environment`; otherwise presence of
`fq_name` with a non-`None` value. -/
def Item.selects (item : Item) (entry : String × List (String × PyVal)) : Bool :=
  if entry.1 = "ENVIRONMENT" then item.inEnvironment entry.2
  else
    match lookupE entry.2 item.fq_name with
    | some v => !isNoneV v
    | Option.none => false

/-- `YapconfItem._find_label_and_override` (lines 441-461): scan the
overrides in order; an `ENVIRONMENT` entry that matches is returned unless
`skip_environment` (then it is only logged and skipped); a non-environment
entry is returned when it holds `fq_name` non-`None`. `Option.none` stands
for the `(None, None)` result. -/
def Item.findLabelAndOverride (item : Item)
    (overrides : List (String × List (String × PyVal)))
    (skip_environment : Bool) : Option (String × List (String × PyVal)) :=
  match overrides with
  | [] => Option.none
  | (label, info) :: rest =>
    if label = "ENVIRONMENT" then
      if item.inEnvironment info then
        if skip_environment then item.findLabelAndOverride rest skip_environment
        else some (label, info)
      else item.findLabelAndOverride rest skip_environment
    else
      match lookupE info item.fq_name with
      | some v =>
          if isNoneV v then item.findLabelAndOverride rest skip_environment
          else some (label, info)
      | Option.none => item.findLabelAndOverride rest skip_environment

/-- The environment-extraction loop of `get_config_value` (lines 335-343):
the value of the first of `all_env_names` present, non-`None` and
non-empty; `None` when none matches. -/
def Item.envValue (item : Item) (info : List (String × PyVal)) : PyVal :=
  match item.all_env_names.find? (envPresent info) with
  | some n => (lookupE info n).getD PyVal.none
  | Option.none => PyVal.none

/-- The errors the embedded operations raise, by exception class.
`itemNotFound` carries the `fq_name` of the item (the exception object
carries the item itself). `unmodelled` marks the `float`/`complex`
conversion branches, which are outside this embedding (no claim involves
them). -/
inductive Err where
  | itemNotFound (fq : String)
  | valueError
  | itemError
  | listItemError
  | dictItemError
  | specError
  | unmodelled (what : String)
deriving DecidableEq, Repr

/-- `YapconfItem._validate_value` (lines 354-361): a truthy `choices` list
must contain the value (Python `in`, so by `==`), and the validator, when
set, must accept it. -/
def Item.validate_value (item : Item) (v : PyVal) : Except Err Unit :=
  match item.choices with
  | some cs =>
      if !cs.isEmpty && !pyMem v cs then .error .valueError
      else
        match item.validator with
        | some f => if f v then .ok () else .error .valueError
        | Option.none => .ok ()
  | Option.none =>
      match item.validator with
      | some f => if f v then .ok () else .error .valueError
      | Option.none => .ok ()

/-- `YapconfBoolItem.TRUTHY_VALUES`. -/
def TRUTHY_VALUES : List PyVal :=
  [.str "y", .str "yes", .str "t", .str "true", .str "1", .int 1, .bool true]

/-- `YapconfBoolItem.FALSY_VALUES`. -/
def FALSY_VALUES : List PyVal :=
  [.str "n", .str "no", .str "f", .str "false", .str "0", .int 0, .bool false]

/-- `YapconfBoolItem.convert_config_value` (lines 664-685): lower-case a
string value, then test membership (Python `in`, so by `==`) in the truthy
then the falsy tuple; anything else raises `YapconfValueError`. -/
def convertBoolValue (value : PyVal) : Except Err PyVal :=
  let value := match value with
    | .str s => .str (pyLower s)
    | v => v
  if pyMem value TRUTHY_VALUES then .ok (.bool true)
  else if pyMem value FALSY_VALUES then .ok (.bool false)
  else .error .valueError

/-- `YapconfItem.convert_config_value` (lines 363-385), the scalar base
class: dispatch on `item_type`; `TypeError`/`ValueError` from the cast
becomes `YapconfValueError`, an unknown type raises `YapconfItemError`. -/
def Item.convert_config_value (item : Item) (value : PyVal) : Except Err PyVal :=
  match item.item_type with
  | "str" => .ok (.str (pyStr value))
  | "int" =>
      match pyToInt value with
      | some n => .ok (.int n)
      | Option.none => .error .valueError
  | "long" =>
      match pyToInt value with
      | some n => .ok (.int n)
      | Option.none => .error .valueError
  | "float" => .error (.unmodelled "float")
  | "complex" => .error (.unmodelled "complex")
  | _ => .error .itemError

/-- Conversion as virtually dispatched on a compiled scalar or boolean
item: declared type `bool` means the item was built as `YapconfBoolItem`,
whose `convert_config_value` override applies the truthy/falsy table. -/
def Item.convertValue (item : Item) (value : PyVal) : Except Err PyVal :=
  if item.item_type = "bool" then convertBoolValue value
  else item.convert_config_value value

/-- The tail of `get_config_value` (lines 347-352): a `None` value is
returned unconverted; otherwise convert, then validate, and return the
converted value. -/
def Item.finishValue (item : Item) (value : PyVal) : Except Err PyVal :=
  if isNoneV value then .ok PyVal.none
  else
    match item.convertValue value with
    | .error e => .error e
    | .ok c =>
        match item.validate_value c with
        | .error e => .error e
        | .ok _ => .ok c

/-- `YapconfItem.get_config_value` (lines 301-352) for scalar and boolean
items: find the first override that provides a value; raise
`YapconfItemNotFound` when none does, the default is `None` and the item is
required; fall back to the default when none does otherwise; extract the
raw value (environment entries via the `all_env_names` loop, others at
`fq_name`); return `None` unconverted, else convert and validate. -/
def Item.getConfigValue (item : Item)
    (overrides : List (String × List (String × PyVal))) : Except Err PyVal :=
  match item.findLabelAndOverride overrides false with
  | Option.none =>
      if isNoneV item.default && item.required then
        .error (.itemNotFound item.fq_name)
      else item.finishValue item.default
  | some (label, info) =>
      let value :=
        if label = "ENVIRONMENT" then item.envValue info
        else (lookupE info item.fq_name).getD PyVal.none
      item.finishValue value
/-! ## Spec-level loading (src/yapconf/spec.py) -/

/-- `YapconfSpec._get_defaults` restricted to top-level scalar/boolean
items: `{item.name: item.default}`. -/
def specDefaults (items : List Item) : List (String × PyVal) :=
  items.map fun it => (it.name, it.default)

/-- `YapconfSpec._generate_overrides` for dictionary override arguments:
each dict becomes `(\'dict-<index>\', flatten(data))` — the label
`_extract_source` gives an unlabelled dict and the flattening
`ConfigSource.generate_override` performs — and the synthetic
`(\'__defaults__\', flatten(defaults))` entry is appended last. -/
def generateOverridesDicts (items : List Item) (sep : String)
    (dicts : List (List (String × PyVal))) :
    List (String × List (String × PyVal)) :=
  (dicts.enum.map fun p => ("dict-" ++ toString p.1, flatten sep "" p.2)) ++
    [("__defaults__", flatten sep "" (specDefaults items))]

/-- `YapconfSpec.load_config` over dictionary overrides for a spec of
top-level scalar/boolean items: generate the overrides, then resolve every
item in order (`_generate_config_from_overrides`); the first exception
aborts the whole load. -/
def loadConfigDicts (items : List Item) (sep : String)
    (dicts : List (List (String × PyVal))) :
    Except Err (List (String × PyVal)) :=
  let ovs := generateOverridesDicts items sep dicts
  items.mapM fun it => do
    let v ← it.getConfigValue ovs
    pure (it.name, v)

/-! ## Migration (src/yapconf/items.py lines 473-516, spec.py lines 265-352) -/

/-- `YapconfItem._search_config_for_fq_name` (lines 473-481) after the
`fq_name.split(separator)` step: walk all but the last segment through
nested dicts (a missing segment returns `None`; descending into a non-dict
value, which cannot answer `.get` and would fault in Python, also returns
`None` here) and `get` the last segment with `None` as fallback. -/
def searchSegments : List String → List (String × PyVal) → PyVal
  | [], _ => PyVal.none
  | [n], config => (lookupE config n).getD PyVal.none
  | n :: rest, config =>
      match lookupE config n with
      | some (.dict d) => searchSegments rest d
      | _ => PyVal.none

/-- `_search_config_for_fq_name` proper: split on the separator, walk. -/
def Item.searchFqName (item : Item) (fq : String)
    (config : List (String × PyVal)) : PyVal :=
  searchSegments (pySplit item.separator fq) config

/-- `self.possible_names = [fq_name] + previous_names` (line 232). -/
def Item.possible_names (item : Item) : List String :=
  item.fq_name :: item.previous_names

/-- The loop of `_search_config_for_possible_names` (lines 483-488): the
first listed name whose search yields a value that `is not None`; `None`
when every name misses. -/
def Item.searchNames (item : Item) (names : List String)
    (config : List (String × PyVal)) : PyVal :=
  match names with
  | [] => PyVal.none
  | fq :: rest =>
      let v := item.searchFqName fq config
      if isNoneV v then item.searchNames rest config else v

/-- `_search_config_for_possible_names`. -/
def Item.searchPossibleNames (item : Item)
    (config : List (String × PyVal)) : PyVal :=
  item.searchNames item.possible_names config

/-- Python dict assignment `config[name] = value` on the association-list
embedding: replace the binding in place when the key is present, else
append a new binding. -/
def setKey : List (String × PyVal) → String → PyVal → List (String × PyVal)
  | [], k, v => [(k, v)]
  | (k0, v0) :: rest, k, v =>
      if k0 = k then (k, v) :: rest else (k0, v0) :: setKey rest k v

/-- The value `YapconfItem._update_config` (lines 490-516) writes, by its
four-branch precedence: nothing found (`value is None`) → default;
`always_update` → default; found value in `previous_defaults` (Python `in`,
so by `==`) with `update_defaults` set → default; otherwise keep the found
value. -/
def Item.updateConfigValue (item : Item) (value : PyVal)
    (always_update update_defaults : Bool) : PyVal :=
  if isNoneV value then item.default
  else if always_update then item.default
  else if pyMem value item.previous_defaults && update_defaults then item.default
  else value

/-- `_update_config`: write the decided value at `self.name`. -/
def Item.updateConfig (item : Item) (config : List (String × PyVal))
    (value : PyVal) (always_update update_defaults : Bool) :
    List (String × PyVal) :=
  setKey config item.name
    (item.updateConfigValue value always_update update_defaults)

/-- The per-item loop of `YapconfSpec.migrate_config_file` (spec.py lines
332-343, `include_bootstrap=True`) over top-level scalar/boolean items:
starting from an empty migrated config, each item searches the current
config under all its possible names and writes its decided value. -/
def migrateItems (items : List Item) (always_update update_defaults : Bool)
    (current : List (String × PyVal)) : List (String × PyVal) :=
  items.foldl
    (fun cfg item =>
      item.updateConfig cfg (item.searchPossibleNames current)
        always_update update_defaults)
    []

/-! ## The schema compiler (src/yapconf/items.py lines 19-117, 387-406,
789-794, 959-965; src/yapconf/spec.py lines 81-101) -/

/-- An entry of the schema mapping (an `item_dict`), carrying the keys
`_generate_item` reads that the claims exercise. `type_decl` and
`required_decl` are `Option`s because `item_dict.get` supplies a default
(`\'str\'` and `True`) when the key is absent; an absent `default` is the
same as an explicit `None`, exactly as `item_dict.get(\'default\')`. -/
inductive SchemaItem where
  | mk (type_decl : Option String) (default : PyVal) (required_decl : Option Bool)
      (choices : Option (List PyVal)) (validator : Option (PyVal → Bool))
      (previous_names : List String) (previous_defaults : List PyVal)
      (items : List (String × SchemaItem))

def SchemaItem.type_decl : SchemaItem → Option String
  | .mk t _ _ _ _ _ _ _ => t

def SchemaItem.default : SchemaItem → PyVal
  | .mk _ d _ _ _ _ _ _ => d

def SchemaItem.required_decl : SchemaItem → Option Bool
  | .mk _ _ r _ _ _ _ _ => r

def SchemaItem.choices : SchemaItem → Option (List PyVal)
  | .mk _ _ _ c _ _ _ _ => c

def SchemaItem.validator : SchemaItem → Option (PyVal → Bool)
  | .mk _ _ _ _ v _ _ _ => v

def SchemaItem.previous_names : SchemaItem → List String
  | .mk _ _ _ _ _ p _ _ => p

def SchemaItem.previous_defaults : SchemaItem → List PyVal
  | .mk _ _ _ _ _ _ p _ => p

def SchemaItem.items : SchemaItem → List (String × SchemaItem)
  | .mk _ _ _ _ _ _ _ i => i

/-- `TYPES` (line 16). -/
def TYPES : List String :=
  ["str", "int", "long", "float", "bool", "complex", "dict", "list"]

/-- Python substring test `sub in s`. -/
def strHasSub (s sub : String) : Bool :=
  decide (sub.data <:+: s.data)

/-- `self.prefix` as a truthy value (`if self.prefix:`). -/
def Item.prefixTruthy (item : Item) : Bool :=
  match item.prefixName with
  | some p => p ≠ ""
  | Option.none => false

/-- `YapconfItem._validate` (lines 387-406) without the `cli_short_name`
checks (short names are outside this model): the separator must not occur
in the name, the type must be one of `TYPES`, and a *truthy* default is
passed to `_validate_value`. -/
def Item.validateConstruction (item : Item) : Except Err Unit :=
  if strHasSub item.name item.separator then .error .itemError
  else if !TYPES.contains item.item_type then .error .itemError
  else if pyTruthy item.default then item.validate_value item.default
  else .ok ()

/-- A constructed item together with its children: what `_generate_item`
returns. -/
inductive CompiledItem where
  | mk (base : Item) (children : List (String × CompiledItem))

def CompiledItem.base : CompiledItem → Item
  | .mk b _ => b

def CompiledItem.children : CompiledItem → List (String × CompiledItem)
  | .mk _ c => c

mutual

/-- `_generate_item` (lines 73-117) plus the constructor checks of the
class it instantiates: children are generated first (`_get_item_children`,
lines 52-70 — for a declared `list` type the *first* entry under `items`
becomes the single child template, stored under the list\x27s own name and
with the parent path unchanged; for other types every entry is compiled
with the parent path extended); then the item is constructed and
`_validate` runs, followed by `YapconfListItem.__init__`\x27s
exactly-one-child check (lines 789-792) or `YapconfDictItem.__init__`\x27s
no-choices and at-least-one-child checks (lines 959-965). -/
def generateItem (name : String) (sd : SchemaItem) (separator : String)
    (parent_names : List String) : Except Err CompiledItem :=
  match sd with
  | .mk type_decl dflt required_decl choiceList validatorF prev_names prev_defaults childSpecs =>
    let item_type := type_decl.getD "str"
    let childrenE : Except Err (List (String × CompiledItem)) :=
      if childSpecs.isEmpty then .ok []
      else if item_type = "list" then
        match childSpecs with
        | [] => .ok []
        | (_, childSd) :: _ =>
            match generateItem name childSd separator parent_names with
            | .error e => .error e
            | .ok ci => .ok [(name, ci)]
      else
        fromSpecification childSpecs separator (parent_names ++ [name])
    match childrenE with
    | .error e => .error e
    | .ok children =>
        let base : Item :=
          { name := name
            item_type := item_type
            default := dflt
            required := required_decl.getD true
            choices := choiceList
            validator := validatorF
            previous_names := prev_names
            previous_defaults := prev_defaults
            separator := separator
            prefixName :=
              if parent_names.isEmpty then Option.none
              else some (String.intercalate separator parent_names) }
        match base.validateConstruction with
        | .error e => .error e
        | .ok _ =>
            if item_type = "list" then
              if children.length = 1 then .ok (.mk base children)
              else .error .listItemError
            else if item_type = "dict" then
              if base.choices.isSome then .error .dictItemError
              else if children.length < 1 then .error .dictItemError
              else .ok (.mk base children)
            else .ok (.mk base children)
termination_by structural sd

/-- `from_specification` (lines 19-42): compile every entry in order, each
with its own copy of the parent path. -/
def fromSpecification (spec : List (String × SchemaItem)) (separator : String)
    (parent_names : List String) : Except Err (List (String × CompiledItem)) :=
  match spec with
  | [] => .ok []
  | (k, sdk) :: rest =>
      match generateItem k sdk separator parent_names with
      | .error e => .error e
      | .ok ci =>
          match fromSpecification rest separator parent_names with
          | .error e => .error e
          | .ok others => .ok ((k, ci) :: others)
termination_by structural spec

end

mutual

/-- `YapconfSpec._validate_specification` (spec.py lines 81-101): validate
every entry in order. -/
def validateSpecification (spec : List (String × SchemaItem)) : Except Err Unit :=
  match spec with
  | [] => .ok ()
  | (_, sd) :: rest =>
      match validateSpecItem sd with
      | .error e => .error e
      | .ok _ => validateSpecification rest
termination_by structural spec

/-- The per-entry checks of `_validate_specification`: an item with
children must be declared `list` or `dict`, one declared `list` or `dict`
must have children, and the children of a `list`/`dict` are validated
recursively. -/
def validateSpecItem (sd : SchemaItem) : Except Err Unit :=
  match sd with
  | .mk type_decl _ _ _ _ _ _ childSpecs =>
    let item_type := type_decl.getD "str"
    if !childSpecs.isEmpty && !(item_type = "list" || item_type = "dict") then
      .error .specError
    else if (item_type = "list" || item_type = "dict") && childSpecs.isEmpty then
      .error .specError
    else if item_type = "list" || item_type = "dict" then
      validateSpecification childSpecs
    else .ok ()
termination_by structural sd

end

/-- `YapconfSpec` construction on an in-memory schema mapping:
`_validate_specification` then `from_specification` (spec.py lines 43-59). -/
def compileSpec (spec : List (String × SchemaItem)) (separator : String) :
    Except Err (List (String × CompiledItem)) :=
  match validateSpecification spec with
  | .error e => .error e
  | .ok _ => fromSpecification spec separator []

/-! ## CLI argument registration (src/yapconf/items.py lines 633-662,
833-868) -/

/-- One registration made on the argparse parser: the argument\'s `dest`
and its action name, which is what distinguishes the two registrations a
boolean item makes (the parser itself is an external collaborator, out of
scope per the spec). -/
structure ArgReg where
  dest : String
  action : String
deriving Repr, DecidableEq

/-- `YapconfBoolItem._get_argparse_action` (lines 687-694). -/
def boolArgAction (item : Item) (parent_action : Bool) : String :=
  if item.prefixTruthy && parent_action then "MergeAction"
  else if pyTruthy item.default then "store_false"
  else "store_true"

/-- `YapconfBoolItem.add_argument` (lines 633-662) as a state transformer
over the item: save `default`, register once with `default = True`,
register once with `default = False`, restore `default`. Returns the item
as the method leaves it, and the parser with the two registrations
appended. -/
def boolAddArgument (item : Item) (parser : List ArgReg) : Item × List ArgReg :=
  let tmp_default := item.default
  let item1 : Item := { item with default := .bool true }
  let reg1 : ArgReg := { dest := item1.fq_name, action := boolArgAction item1 true }
  let item2 : Item := { item1 with default := .bool false }
  let reg2 : ArgReg := { dest := item2.fq_name, action := boolArgAction item2 true }
  ({ item2 with default := tmp_default }, parser ++ [reg1, reg2])

/-- A compiled list item: the base attributes and `self.child` (lines
789-794). -/
structure ListItemC where
  base : Item
  child : Item

/-- `YapconfListItem._get_argparse_action` (lines 876-882). -/
def listArgAction (li : ListItemC) (parent_action : Bool) : String :=
  if li.base.prefixTruthy && parent_action then "MergeAction"
  else if li.child.item_type = "bool" then "AppendBoolean"
  else "AppendReplace"

/-- `YapconfListItem.add_argument` (lines 833-868): when exposed on the CLI
and the child is a boolean item, the child\'s default is saved, the two
registrations are made with the child\'s default set to `True` then
`False`, and the child\'s default is restored; a non-boolean child takes
the base single registration (itself guarded by `cli_expose`). -/
def listAddArgument (li : ListItemC) (parser : List ArgReg) :
    ListItemC × List ArgReg :=
  if li.base.cli_expose then
    if li.child.item_type = "bool" then
      let original_default := li.child.default
      let li1 : ListItemC := { li with child := { li.child with default := .bool true } }
      let reg1 : ArgReg := { dest := li1.base.fq_name, action := listArgAction li1 true }
      let li2 : ListItemC := { li1 with child := { li1.child with default := .bool false } }
      let reg2 : ArgReg := { dest := li2.base.fq_name, action := listArgAction li2 true }
      ({ li2 with child := { li2.child with default := original_default } },
        parser ++ [reg1, reg2])
    else
      (li, parser ++ [{ dest := li.base.fq_name, action := listArgAction li true }])
  else (li, parser)
/-- The last item of the list bearing a given name: the final writer of
that key during the migration loop. -/
def lastNamed (k : String) : List Item → Option Item
  | [] => Option.none
  | it :: rest =>
      match lastNamed k rest with
      | some it2 => some it2
      | Option.none => if it.name = k then some it else Option.none

/-! ## Structure predicates and path addressing for the flatten round-trip -/

/-- Whether a value is a dict. -/
def isDictV : PyVal → Bool
  | .dict _ => true
  | _ => false

/-- Whether a value is a list. -/
def isListV : PyVal → Bool
  | .list _ => true
  | _ => false

/-- Keys of an association list are pairwise distinct (always true of a
mapping that comes from a Python dict). -/
def distinctKeys : List (String × PyVal) → Bool
  | [] => true
  | (k, _) :: rest => !(rest.any fun p => p.1 == k) && distinctKeys rest

mutual

/-- Every key along the dict spine is nonempty, avoids the separator
character, and dict values are well-formed recursively (list and scalar
values end the spine). -/
def wfEntries (c : Char) : List (String × PyVal) → Bool
  | [] => true
  | (k, v) :: rest =>
      (k != "") && !(k.data.contains c) && wfValKeys c v && wfEntries c rest
termination_by structural d => d

def wfValKeys (c : Char) : PyVal → Bool
  | .dict d => distinctKeys d && wfEntries c d
  | _ => true
termination_by structural v => v

end

/-- A nested mapping whose dict spine has distinct, nonempty,
separator-free keys at every level. -/
def wfDict (c : Char) (d : List (String × PyVal)) : Bool :=
  distinctKeys d && wfEntries c d

/-- The leaf `v` sits at dict path `path` inside `d`: each segment but the
last descends into a dict value, the last looks up a non-dict value. -/
inductive ValueAt : List (String × PyVal) → List String → PyVal → Prop
  | here {d : List (String × PyVal)} {k : String} {v : PyVal} :
      lookupE d k = some v → isDictV v = false → ValueAt d [k] v
  | there {d : List (String × PyVal)} {k : String}
      {d2 : List (String × PyVal)} {path : List String} {v : PyVal} :
      lookupE d k = some (.dict d2) → ValueAt d2 path v →
      ValueAt d (k :: path) v

/-- The separator-joined fully-qualified path. -/
def joinSegs (sep : String) : List String → String
  | [] => ""
  | [k] => k
  | k :: rest => k ++ sep ++ joinSegs sep rest

/-- The key `flatten` incrementally builds along a path, starting from an
accumulated prefix. -/
def joinAll (sep pre : String) (path : List String) : String :=
  path.foldl (joinKey sep) pre

/-! ## Concrete fixtures used by witnesses and counterexamples -/

/-- A plain required string item named `x`, as compiled from
`{"x": {"type": "str"}}`. -/
def sampleStrItem : Item := { name := "x", item_type := "str" }

/-- The same item with `required=False`. -/
def sampleOptItem : Item := { name := "x", item_type := "str", required := false }

/-- A string item with `env_name="FOO"` and default `"bar"`. -/
def sampleEnvItem : Item :=
  { name := "foo"
    item_type := "str"
    env_name := some "FOO"
    default := .str "bar" }

/-- The migration scenario item: `{"foo": {"default": "baz",
"previous_defaults": ["bar"]}}`. -/
def sampleMigItem : Item :=
  { name := "foo"
    item_type := "str"
    default := .str "baz"
    previous_defaults := [.str "bar"] }

/-- An optional item named `a` whose `previous_names` alias another item\x27s
current name `b`. -/
def migItemA : Item :=
  { name := "a"
    item_type := "str"
    previous_names := ["b"]
    required := false }

/-- An item named `b` with default `"x"`. -/
def migItemB : Item := { name := "b", item_type := "str", default := .str "x" }

/-- The schema entry `{}` (a plain string item). -/
def plainStrSchema : SchemaItem :=
  .mk Option.none .none Option.none Option.none Option.none [] [] []

/-- A `list`-typed schema entry with *two* entries under `items`. -/
def twoChildListSchema : SchemaItem :=
  .mk (some "list") .none Option.none Option.none Option.none [] []
    [("a", plainStrSchema), ("b", plainStrSchema)]

/-- An `int` schema entry with the falsy default `0` and choices `[1]`:
the default is not a member of the choices. -/
def zeroDefaultSchema : SchemaItem :=
  .mk (some "int") (.int 0) Option.none (some [.int 1]) Option.none [] [] []

/-- An item with the truthy default `"z"` and choices `["a"]`. -/
def badDefaultItem : Item :=
  { name := "x"
    item_type := "str"
    default := .str "z"
    choices := some [.str "a"] }

/-- An item with the truthy default `"z"` and a validator accepting only
`"a"`. -/
def badValidatorItem : Item :=
  { name := "x"
    item_type := "str"
    default := .str "z"
    validator := some fun v => pyEq v (.str "a") }

/-- The truthy set of the specification, read off its words: the strings
`y`, `yes`, `t`, `true`, `1` in any letter case, numeric 1, boolean
true. -/
def specTruthyBool : PyVal → Bool
  | .str s => pyLower s = "y" || pyLower s = "yes" || pyLower s = "t" ||
      pyLower s = "true" || pyLower s = "1"
  | .int n => n = 1
  | .bool b => b
  | _ => false

/-- The falsy set of the specification: the strings `n`, `no`, `f`,
`false`, `0` in any letter case, numeric 0, boolean false. -/
def specFalsyBool : PyVal → Bool
  | .str s => pyLower s = "n" || pyLower s = "no" || pyLower s = "f" ||
      pyLower s = "false" || pyLower s = "0"
  | .int n => n = 0
  | .bool b => !b
  | _ => false

/-- The migrated-value precedence exactly as the specification words it,
with `found = Option.none` standing for "no value was found in the current
config under the fully-qualified name or any previous name". -/
def specMigratedValue (found : Option PyVal) (dflt : PyVal)
    (always_update update_defaults : Bool)
    (previous_defaults : List PyVal) : PyVal :=
  match found with
  | Option.none => dflt
  | some v =>
      if always_update then dflt
      else if update_defaults && pyMem v previous_defaults then dflt
      else v

/-- The compiled item the two-entry list schema produces. -/
def sampleCompiledList : CompiledItem :=
  .mk { name := "mylist", item_type := "list" }
    [("mylist", .mk { name := "mylist", item_type := "str" } [])]

/-! ## Supporting lemmas -/

theorem lookupE_append (A B : List (String × PyVal)) (k : String) :
    lookupE (A ++ B) k = (lookupE A k).or (lookupE B k) := by
  induction A with
  | nil => simp [lookupE]
  | cons p rest ih =>
      obtain ⟨k0, v0⟩ := p
      by_cases h : k0 = k <;> simp [lookupE, h, ih]

/-- `_find_label_and_override` without `skip_environment` is the first
entry satisfying `selects`. -/
theorem findLabelAndOverride_eq_find (item : Item)
    (ovs : List (String × List (String × PyVal))) :
    item.findLabelAndOverride ovs false = ovs.find? item.selects := by
  induction ovs with
  | nil => rfl
  | cons e rest ih =>
      obtain ⟨label, info⟩ := e
      by_cases hl : label = "ENVIRONMENT"
      · subst hl
        by_cases he : item.inEnvironment info <;>
          simp [Item.findLabelAndOverride, Item.selects, he, ih, List.find?]
      · cases hlk : lookupE info item.fq_name with
        | none =>
            simp [Item.findLabelAndOverride, Item.selects, hl, hlk, ih, List.find?]
        | some v =>
            cases hn : isNoneV v <;>
              simp [Item.findLabelAndOverride, Item.selects, hl, hlk, hn, ih, List.find?]

/-- `get_config_value` through the first selecting entry. -/
theorem getConfigValue_find (item : Item)
    (ovs : List (String × List (String × PyVal))) :
    item.getConfigValue ovs =
      (match ovs.find? item.selects with
       | Option.none =>
           if isNoneV item.default && item.required then
             .error (.itemNotFound item.fq_name)
           else item.finishValue item.default
       | some (label, info) =>
           item.finishValue
             (if label = "ENVIRONMENT" then item.envValue info
              else (lookupE info item.fq_name).getD PyVal.none)) := by
  rw [Item.getConfigValue, findLabelAndOverride_eq_find]

/-! ## The claims -/

/-- C1: for every compiled item and ordered override list,
`get_config_value` takes its value from the earliest override entry that
provides one — `_find_label_and_override` is a first-match scan
(`List.find?`) for the entry-selection predicate (for `ENVIRONMENT`
entries, some environment name bound to a non-`None`, non-empty value; for
others, `fq_name` bound to a non-`None` value); once an entry is selected,
every later entry is ignored; and `load_config` on the override list
`[{"x": "a"}, {"x": "b"}]` resolves `x` to `"a"`. -/
theorem C1_earliest_override_wins :
    (∀ (item : Item) (ovs : List (String × List (String × PyVal))),
        item.findLabelAndOverride ovs false = ovs.find? item.selects) ∧
    (∀ (item : Item) (pre post post' : List (String × List (String × PyVal)))
        (e : String × List (String × PyVal)),
        (∀ x ∈ pre, item.selects x = false) → item.selects e = true →
        item.getConfigValue (pre ++ e :: post) =
          item.getConfigValue (pre ++ e :: post')) ∧
    loadConfigDicts [sampleStrItem] "." [[("x", .str "a")], [("x", .str "b")]] =
      .ok [("x", .str "a")] := by
  refine ⟨findLabelAndOverride_eq_find, ?_, rfl⟩
  intro item pre post post' e hpre he
  have hfind : ∀ tail : List (String × List (String × PyVal)),
      (pre ++ e :: tail).find? item.selects = some e := by
    intro tail
    rw [List.find?_append]
    have h1 : pre.find? item.selects = Option.none :=
      List.find?_eq_none.mpr fun x hx => by simp [hpre x hx]
    simp [h1, List.find?, he]
  rw [getConfigValue_find, getConfigValue_find, hfind post, hfind post']

/-- Closed instance of C1: with a first entry providing `"a"`, the tail of
the override list is irrelevant. -/
theorem C1_earliest_override_wins_witness :
    sampleStrItem.getConfigValue
        ([] ++ ("d1", [("x", PyVal.str "a")]) :: [("d2", [("x", PyVal.str "b")])]) =
      sampleStrItem.getConfigValue ([] ++ ("d1", [("x", PyVal.str "a")]) :: []) :=
  C1_earliest_override_wins.2.1 sampleStrItem [] [("d2", [("x", PyVal.str "b")])] []
    ("d1", [("x", PyVal.str "a")]) (by intro x hx; cases hx) (by decide)

/-- C2: a scalar item none of whose override entries provides a value
raises `YapconfItemNotFound` (carrying the item\x27s fully qualified name)
when its default is `None` and it is required, and resolves to `None`
without error (and without conversion) when its default is `None` and it
is not required. -/
theorem C2_missing_value_default_none :
    ∀ (item : Item) (ovs : List (String × List (String × PyVal))),
      (∀ e ∈ ovs, item.selects e = false) →
      isNoneV item.default = true →
      (item.required = true →
        item.getConfigValue ovs = .error (.itemNotFound item.fq_name)) ∧
      (item.required = false → item.getConfigValue ovs = .ok PyVal.none) := by
  intro item ovs hnone hdef
  have hfind : ovs.find? item.selects = Option.none :=
    List.find?_eq_none.mpr fun x hx => by simp [hnone x hx]
  have hd : item.default = PyVal.none := by
    cases h : item.default <;> simp [h, isNoneV] at hdef ⊢
  constructor
  · intro hreq
    rw [getConfigValue_find, hfind]
    simp [hdef, hreq]
  · intro hreq
    rw [getConfigValue_find, hfind]
    simp [hdef, hreq, Item.finishValue, hd, isNoneV]

/-- Closed instance of C2 at the `x` fixtures with an empty override
list. -/
theorem C2_missing_value_default_none_witness :
    sampleStrItem.getConfigValue [] = .error (.itemNotFound "x") ∧
    sampleOptItem.getConfigValue [] = .ok PyVal.none :=
  ⟨(C2_missing_value_default_none sampleStrItem [] (by intro e he; cases he) rfl).1 rfl,
   (C2_missing_value_default_none sampleOptItem [] (by intro e he; cases he) rfl).2 rfl⟩

/-- C3: an `ENVIRONMENT` entry in which every one of the item\x27s
environment names is absent, `None`, or the empty string is not selected:
resolution behaves exactly as if the entry were not there, falling through
to later entries or the default. -/
theorem C3_empty_env_treated_absent :
    ∀ (item : Item) (env : List (String × PyVal))
      (rest : List (String × List (String × PyVal))),
      (∀ n ∈ item.all_env_names,
        lookupE env n = Option.none ∨ lookupE env n = some PyVal.none ∨
          lookupE env n = some (PyVal.str "")) →
      item.inEnvironment env = false ∧
      item.getConfigValue (("ENVIRONMENT", env) :: rest) =
        item.getConfigValue rest := by
  intro item env rest habsent
  have hin : item.inEnvironment env = false := by
    rw [Item.inEnvironment]
    rw [List.any_eq_false]
    intro n hn
    rcases habsent n hn with h | h | h <;> simp [envPresent, h, isNoneV, pyEq]
  refine ⟨hin, ?_⟩
  rw [getConfigValue_find, getConfigValue_find]
  have : (("ENVIRONMENT", env) :: rest).find? item.selects =
      rest.find? item.selects := by
    simp [List.find?, Item.selects, hin]
  rw [this]

/-- Closed instance of C3: `env_name="FOO"`, environment `{"FOO": ""}`
falls through to the default `"bar"`. -/
theorem C3_empty_env_treated_absent_witness :
    (sampleEnvItem.inEnvironment [("FOO", PyVal.str "")] = false ∧
      sampleEnvItem.getConfigValue [("ENVIRONMENT", [("FOO", PyVal.str "")])] =
        sampleEnvItem.getConfigValue []) ∧
    sampleEnvItem.getConfigValue [("ENVIRONMENT", [("FOO", PyVal.str "")])] =
      .ok (PyVal.str "bar") :=
  ⟨C3_empty_env_treated_absent sampleEnvItem [("FOO", PyVal.str "")] []
      (by
        intro n hn
        simp only [sampleEnvItem, Item.all_env_names, List.mem_singleton] at hn
        subst hn
        right; right; rfl), rfl⟩
/-- C4: boolean conversion maps exactly the truthy set to `True`, exactly
the falsy set to `False`, and raises `YapconfValueError` on every other
input, uniformly over strings (any letter case), numbers and booleans. -/
theorem C4_bool_conversion_table :
    ∀ v : PyVal,
      convertBoolValue v =
        (if specTruthyBool v then .ok (.bool true)
         else if specFalsyBool v then .ok (.bool false)
         else .error .valueError) := by
  intro v
  cases v with
  | str s =>
      simp [convertBoolValue, pyMem, TRUTHY_VALUES, FALSY_VALUES, pyEq,
        specTruthyBool, specFalsyBool, or_assoc]
  | int n =>
      simp [convertBoolValue, pyMem, TRUTHY_VALUES, FALSY_VALUES, pyEq,
        specTruthyBool, specFalsyBool]
  | bool b =>
      cases b <;>
        simp [convertBoolValue, pyMem, TRUTHY_VALUES, FALSY_VALUES, pyEq,
          specTruthyBool, specFalsyBool]
  | none =>
      simp [convertBoolValue, pyMem, TRUTHY_VALUES, FALSY_VALUES, pyEq,
        specTruthyBool, specFalsyBool]
  | list xs =>
      simp [convertBoolValue, pyMem, TRUTHY_VALUES, FALSY_VALUES, pyEq,
        specTruthyBool, specFalsyBool]
  | dict d =>
      simp [convertBoolValue, pyMem, TRUTHY_VALUES, FALSY_VALUES, pyEq,
        specTruthyBool, specFalsyBool]

theorem lookupE_setKey_self (config : List (String × PyVal)) (k : String)
    (v : PyVal) : lookupE (setKey config k v) k = some v := by
  induction config with
  | nil => simp [setKey, lookupE]
  | cons p rest ih =>
      obtain ⟨k0, v0⟩ := p
      by_cases h : k0 = k <;> simp [setKey, lookupE, h, ih]

theorem lookupE_setKey_ne (config : List (String × PyVal)) (k k' : String)
    (v : PyVal) (h : k' ≠ k) :
    lookupE (setKey config k v) k' = lookupE config k' := by
  have hne : ¬(k = k') := fun hh => h hh.symm
  induction config with
  | nil => simp [setKey, lookupE, hne]
  | cons p rest ih =>
      obtain ⟨k0, v0⟩ := p
      by_cases h0 : k0 = k
      · subst h0
        simp [setKey, lookupE, hne]
      · by_cases h1 : k0 = k' <;> simp [setKey, lookupE, h0, h1, ih, h]

/-- C5: `_update_config` writes, under the item\x27s name, exactly the value
the specification\x27s four-step precedence (a)-(d) decides (a found `None`
and an absent value are indistinguishable to the source, which treats both
as "nothing found"); and the migration scenario behaves as claimed: a file
value `"bar"` listed in `previous_defaults` migrates to the default
`"baz"` under `update_defaults=True`, while a custom value `"custom"` is
kept. -/
theorem C5_migration_value_precedence :
    (∀ (item : Item) (config : List (String × PyVal)) (v : PyVal)
        (au ud : Bool),
        lookupE (item.updateConfig config v au ud) item.name =
          some (specMigratedValue (if isNoneV v then Option.none else some v)
            item.default au ud item.previous_defaults)) ∧
    migrateItems [sampleMigItem] false true [("foo", .str "bar")] =
      [("foo", .str "baz")] ∧
    migrateItems [sampleMigItem] false true [("foo", .str "custom")] =
      [("foo", .str "custom")] := by
  refine ⟨?_, rfl, rfl⟩
  intro item config v au ud
  rw [Item.updateConfig, lookupE_setKey_self]
  by_cases h1 : isNoneV v <;> by_cases h2 : au <;>
    by_cases h3 : pyMem v item.previous_defaults <;> by_cases h4 : ud <;>
    simp [Item.updateConfigValue, specMigratedValue, h1, h2, h3, h4]

/-- C10: `YapconfBoolItem.add_argument` always restores the saved default
before returning (it leaves the item exactly as it found it), and
`YapconfListItem.add_argument` likewise leaves the list item — including a
boolean child\x27s default — unchanged. -/
theorem C10_add_argument_restores_default :
    (∀ (item : Item) (parser : List ArgReg),
        (boolAddArgument item parser).1 = item) ∧
    (∀ (li : ListItemC) (parser : List ArgReg),
        (listAddArgument li parser).1 = li) := by
  constructor
  · intro item parser
    cases item
    rfl
  · intro li parser
    obtain ⟨base, child⟩ := li
    by_cases h1 : base.cli_expose
    · by_cases h2 : child.item_type = "bool"
      · obtain ⟨n, ty, df, rq, en, al, ch, vl, pn, pd, sp, pf, ce⟩ := child
        simp only at h2
        subst h2
        simp [listAddArgument, h1]
      · simp [listAddArgument, h1, h2]
    · simp [listAddArgument, h1]

/-- C8 (amended): a successfully compiled `list` item always has exactly
one child, and that child is compiled from the *first* entry under
`items` (stored under the list\x27s own name). -/
theorem C8_list_single_child_amended :
    ∀ (name separator : String) (sd : SchemaItem) (parents : List String)
      (ci : CompiledItem),
      sd.type_decl.getD "str" = "list" →
      generateItem name sd separator parents = .ok ci →
      ci.children.length = 1 ∧
      ∃ (k : String) (childSd : SchemaItem) (rest : List (String × SchemaItem))
        (cchild : CompiledItem),
        sd.items = (k, childSd) :: rest ∧
        generateItem name childSd separator parents = .ok cchild ∧
        ci.children = [(name, cchild)] := by
  intro name separator sd parents ci htype hok
  obtain ⟨t, d, r, cl, vf, pn, pd, childSpecs⟩ := sd
  simp only [SchemaItem.type_decl] at htype
  simp only [SchemaItem.items]
  unfold generateItem at hok
  simp only [htype] at hok
  cases childSpecs with
  | nil =>
      exfalso
      simp only [List.isEmpty_nil, if_true, List.length_nil] at hok
      split at hok <;> simp at hok
  | cons hd rest =>
      obtain ⟨k, childSd⟩ := hd
      simp only [List.isEmpty_cons, Bool.false_eq_true, if_false, if_true] at hok
      cases hchild : generateItem name childSd separator parents with
      | error e =>
          rw [hchild] at hok
          simp at hok
      | ok cchild =>
          rw [hchild] at hok
          simp at hok
          split at hok
          · simp at hok
          · simp at hok
            subst hok
            exact ⟨rfl, k, childSd, rest, cchild, rfl, hchild, rfl⟩

/-- Counterexample to C8 as stated: a schema declaring a `list` item with
*two* entries under `items` is not rejected — the whole spec compiles
successfully (and the compiled list item silently keeps one child). -/
theorem C8_list_single_child_counterexample :
    (∃ cis, compileSpec [("mylist", twoChildListSchema)] "." = .ok cis) ∧
    (∃ ci, generateItem "mylist" twoChildListSchema "." [] = .ok ci ∧
      ci.children.length = 1) :=
  ⟨⟨_, rfl⟩, ⟨_, rfl, rfl⟩⟩

/-- Closed instance of the amended C8 at the two-entry list schema. -/
theorem C8_list_single_child_amended_witness :
    sampleCompiledList.children.length = 1 :=
  (C8_list_single_child_amended "mylist" "." twoChildListSchema []
    sampleCompiledList rfl rfl).1

/-- C9 (amended): construction-time validation of the default only runs
for a *truthy* default (`_validate` guards with `if self.default:`): a
truthy default that is not a member of a nonempty `choices` list, or that
fails the validator, makes construction raise `YapconfValueError`. -/
theorem C9_default_validation_amended :
    ∀ it : Item,
      strHasSub it.name it.separator = false →
      TYPES.contains it.item_type = true →
      pyTruthy it.default = true →
      (∀ cs, it.choices = some cs → cs.isEmpty = false →
        pyMem it.default cs = false →
        it.validateConstruction = .error .valueError) ∧
      (∀ f, it.validator = some f → f it.default = false →
        it.validateConstruction = .error .valueError) := by
  intro it h1 h2 h3
  have h2m : it.item_type ∈ TYPES := by simpa using h2
  constructor
  · intro cs hcs hne hmem
    simp [Item.validateConstruction, h1, h2m, h3, Item.validate_value, hcs, hne, hmem]
  · intro f hf hfd
    cases hc : it.choices with
    | none =>
        simp [Item.validateConstruction, h1, h2m, h3, Item.validate_value, hc, hf, hfd]
    | some cs =>
        by_cases hne : cs.isEmpty <;> by_cases hm : pyMem it.default cs <;>
          simp [Item.validateConstruction, h1, h2m, h3, Item.validate_value, hc,
            hne, hm, hf, hfd]

/-- Closed instance of the amended C9: a truthy default outside `choices`,
and one failing a validator, are both rejected at construction. -/
theorem C9_default_validation_amended_witness :
    badDefaultItem.validateConstruction = .error .valueError ∧
    badValidatorItem.validateConstruction = .error .valueError :=
  ⟨(C9_default_validation_amended badDefaultItem rfl rfl rfl).1 [.str "a"] rfl rfl rfl,
   (C9_default_validation_amended badValidatorItem rfl rfl rfl).2
     (fun v => pyEq v (.str "a")) rfl rfl⟩

/-- Counterexample to C9 as stated: the falsy default `0` with choices
`[1]` is not validated — the item constructs without error even though
`0` is not a member of its choices. -/
theorem C9_default_validation_counterexample :
    (∃ ci, generateItem "x" zeroDefaultSchema "." [] = .ok ci) ∧
    pyMem (.int 0) [.int 1] = false ∧
    pyTruthy (.int 0) = false :=
  ⟨⟨_, rfl⟩, rfl, rfl⟩
theorem isNoneV_iff (v : PyVal) : isNoneV v = true ↔ v = PyVal.none := by
  cases v <;> simp [isNoneV]

/-- For an item with no previous names, a trivial prefix and a
separator-free name, `_search_config_for_possible_names` is a plain
top-level lookup. -/
theorem searchPossibleNames_simple (it : Item) (R : List (String × PyVal))
    (hprev : it.previous_names = []) (hfq : it.fq_name = it.name)
    (hsplit : pySplit it.separator it.name = [it.name]) :
    it.searchPossibleNames R = (lookupE R it.name).getD PyVal.none := by
  rw [Item.searchPossibleNames, Item.possible_names, hprev, hfq]
  rw [Item.searchNames, Item.searchFqName, hsplit]
  by_cases hv : isNoneV (searchSegments [it.name] R) = true
  · rw [if_pos hv, Item.searchNames]
    rw [isNoneV_iff] at hv
    simp only [searchSegments] at hv ⊢
    rw [hv]
  · rw [if_neg hv]
    simp only [searchSegments]

theorem lastNamed_mem_name {k : String} {items : List Item} {it : Item}
    (h : lastNamed k items = some it) : it.name = k ∧ it ∈ items := by
  induction items with
  | nil => cases h
  | cons it0 rest ih =>
      rw [lastNamed] at h
      cases hl : lastNamed k rest with
      | some it2 =>
          rw [hl] at h
          obtain rfl : it2 = it := by cases h; rfl
          exact ⟨(ih hl).1, List.mem_cons_of_mem _ (ih hl).2⟩
      | none =>
          rw [hl] at h
          by_cases hn : it0.name = k
          · rw [if_pos hn] at h
            obtain rfl : it0 = it := by cases h; rfl
            exact ⟨hn, List.mem_cons_self _ _⟩
          · rw [if_neg hn] at h
            cases h

/-- The migration loop, seen through `lookupE`: the value of a key is
decided by the last item bearing that name (each item searches the same
fixed current config, so order of writes is all that matters). -/
theorem migrate_foldl_lookup (au ud : Bool) (current : List (String × PyVal)) :
    ∀ (items : List Item) (cfg : List (String × PyVal)) (k : String),
      lookupE
          (items.foldl
            (fun c it =>
              it.updateConfig c (it.searchPossibleNames current) au ud) cfg) k =
        (match lastNamed k items with
         | some it =>
             some (it.updateConfigValue (it.searchPossibleNames current) au ud)
         | Option.none => lookupE cfg k) := by
  intro items
  induction items with
  | nil => intro cfg k; rfl
  | cons it0 rest ih =>
      intro cfg k
      rw [List.foldl_cons, ih, lastNamed]
      cases hl : lastNamed k rest with
      | some it2 => rfl
      | none =>
          by_cases hn : it0.name = k
          · rw [if_pos hn, Item.updateConfig]
            subst hn
            rw [lookupE_setKey_self]
          · rw [if_neg hn, Item.updateConfig]
            rw [lookupE_setKey_ne _ _ _ _ fun hh => hn hh.symm]

/-- `lookupE` over the whole migration result. -/
theorem migrateItems_lookup (items : List Item) (au ud : Bool)
    (current : List (String × PyVal)) (k : String) :
    lookupE (migrateItems items au ud current) k =
      (lastNamed k items).map
        (fun it => it.updateConfigValue (it.searchPossibleNames current) au ud) := by
  rw [migrateItems, migrate_foldl_lookup au ud current items [] k]
  cases lastNamed k items <;> rfl

/-- With `always_update=False`, re-deciding an item\x27s own default keeps
it. -/
theorem updateConfigValue_default (it : Item) (ud : Bool) :
    it.updateConfigValue it.default false ud = it.default := by
  rw [Item.updateConfigValue]
  by_cases h1 : isNoneV it.default = true <;>
    by_cases h3 : (pyMem it.default it.previous_defaults && ud) = true <;>
    simp [h1, h3]

/-- With `always_update=False`, `_update_config`\x27s value decision is
idempotent. -/
theorem updateConfigValue_idem (it : Item) (v : PyVal) (ud : Bool) :
    it.updateConfigValue (it.updateConfigValue v false ud) false ud =
      it.updateConfigValue v false ud := by
  by_cases h1 : isNoneV v = true
  · have hv : it.updateConfigValue v false ud = it.default := by
      rw [Item.updateConfigValue, if_pos h1]
    rw [hv, updateConfigValue_default]
  · by_cases h3 : (pyMem v it.previous_defaults && ud) = true
    · have hv : it.updateConfigValue v false ud = it.default := by
        rw [Item.updateConfigValue, if_neg h1]
        simp [h3]
      rw [hv, updateConfigValue_default]
    · have hv : it.updateConfigValue v false ud = v := by
        rw [Item.updateConfigValue, if_neg h1]
        simp [h3]
      rw [hv, Item.updateConfigValue, if_neg h1]
      simp [h3]

/-- C6 (amended): with `always_update=False`, migration is idempotent as a
key-value mapping for specs of top-level scalar items none of which
declares `previous_names` (their names are separator-free and
unprefixed, as compiled top-level names are). As stated — over every spec
— the claim fails: an item whose `previous_names` aliases another item\x27s
current name can resolve, on the second run, a value that the first run
left as `None` (see the counterexample). -/
theorem C6_migration_idempotent_amended :
    ∀ (items : List Item) (current : List (String × PyVal)) (ud : Bool)
      (k : String),
      (∀ it ∈ items, it.previous_names = [] ∧ it.fq_name = it.name ∧
        pySplit it.separator it.name = [it.name]) →
      lookupE
          (migrateItems items false ud (migrateItems items false ud current))
          k =
        lookupE (migrateItems items false ud current) k := by
  intro items current ud k hyp
  rw [migrateItems_lookup, migrateItems_lookup]
  cases hl : lastNamed k items with
  | none => rfl
  | some it =>
      obtain ⟨hname, hmem⟩ := lastNamed_mem_name hl
      obtain ⟨hprev, hfq, hsplit⟩ := hyp it hmem
      have hsearch :
          it.searchPossibleNames (migrateItems items false ud current) =
            it.updateConfigValue (it.searchPossibleNames current) false ud := by
        rw [searchPossibleNames_simple it _ hprev hfq hsplit]
        rw [migrateItems_lookup, hname, hl]
        rfl
      exact congrArg some (by simp only []; rw [hsearch, updateConfigValue_idem])

/-- Closed instance of the amended C6 at the one-item migration fixture. -/
theorem C6_migration_idempotent_amended_witness :
    lookupE
        (migrateItems [sampleMigItem] false true
          (migrateItems [sampleMigItem] false true [("foo", PyVal.str "bar")]))
        "foo" =
      lookupE (migrateItems [sampleMigItem] false true [("foo", PyVal.str "bar")])
        "foo" :=
  C6_migration_idempotent_amended [sampleMigItem] [("foo", PyVal.str "bar")] true
    "foo"
    (by
      intro it hit
      simp only [List.mem_singleton] at hit
      subst hit
      exact ⟨rfl, rfl, rfl⟩)

/-- Counterexample to C6 as stated: items `a` (optional, no default,
`previous_names=["b"]`) and `b` (default `"x"`). Migrating the empty
config gives `{"a": None, "b": "x"}`; migrating that result again gives
`{"a": "x", "b": "x"}` — the second run finds a value for `a` under its
previous name `b`, so the results differ. -/
theorem C6_migration_idempotent_counterexample :
    migrateItems [migItemA, migItemB] false true [] =
      [("a", PyVal.none), ("b", PyVal.str "x")] ∧
    migrateItems [migItemA, migItemB] false true
        (migrateItems [migItemA, migItemB] false true []) =
      [("a", PyVal.str "x"), ("b", PyVal.str "x")] ∧
    ([("a", PyVal.str "x"), ("b", PyVal.str "x")] :
        List (String × PyVal)) ≠
      [("a", PyVal.none), ("b", PyVal.str "x")] := by
  refine ⟨rfl, rfl, ?_⟩
  intro h
  have h2 : PyVal.str "x" = PyVal.none := by
    simpa [lookupE] using congrArg (fun l => lookupE l "a") h
  cases h2
/-! ## Lemmas for the flatten round-trip (C7) -/

theorem string_data_inj {a b : String} (h : a.data = b.data) : a = b := by
  cases a with
  | mk da =>
    cases b with
    | mk db =>
      have h2 : da = db := h
      rw [h2]

theorem str_eq_empty_iff (a : String) : a = "" ↔ a.data = [] := by
  constructor
  · intro h; rw [h]
  · intro h; exact string_data_inj h

theorem joinKey_data (c : Char) (pre k : String) :
    (joinKey (String.singleton c) pre k).data =
      if pre = "" then k.data else pre.data ++ c :: k.data := by
  rw [joinKey]
  by_cases h : pre = "" <;> simp [h, String.data_append, String.singleton]

theorem joinKey_ne_empty (c : Char) (pre k : String) (hk : k ≠ "") :
    joinKey (String.singleton c) pre k ≠ "" := by
  intro h
  rw [str_eq_empty_iff, joinKey_data] at h
  by_cases hp : pre = ""
  · rw [if_pos hp] at h
    exact hk ((str_eq_empty_iff k).mpr h)
  · rw [if_neg hp] at h
    cases List.append_eq_nil.mp h with
    | intro h1 h2 => cases h2

theorem charSeg_inj (c : Char) :
    ∀ (la lb tail tail' : List Char),
      c ∉ la → c ∉ lb →
      (tail = [] ∨ ∃ t, tail = c :: t) →
      (tail' = [] ∨ ∃ t, tail' = c :: t) →
      la ++ tail = lb ++ tail' → la = lb ∧ tail = tail' := by
  intro la
  induction la with
  | nil =>
      intro lb tail tail' hca hcb ht ht' h
      cases lb with
      | nil => simpa using h
      | cons b lb' =>
          exfalso
          simp only [List.nil_append, List.cons_append] at h
          rcases ht with rfl | ⟨t, rfl⟩
          · cases h
          · injection h with h1 h2
            exact hcb (by rw [h1]; exact List.mem_cons_self _ _)
  | cons a la' ih =>
      intro lb tail tail' hca hcb ht ht' h
      cases lb with
      | nil =>
          exfalso
          simp only [List.cons_append, List.nil_append] at h
          rcases ht' with rfl | ⟨t, rfl⟩
          · cases h
          · injection h with h1 h2
            exact hca (by rw [h1]; exact List.mem_cons_self _ _)
      | cons b lb' =>
          simp only [List.cons_append, List.cons.injEq] at h
          obtain ⟨rfl, h2⟩ := h
          have hca2 : c ∉ la' := fun hm => hca (List.mem_cons_of_mem _ hm)
          have hcb2 : c ∉ lb' := fun hm => hcb (List.mem_cons_of_mem _ hm)
          obtain ⟨h3, h4⟩ := ih lb' tail tail' hca2 hcb2 ht ht' h2
          exact ⟨by rw [h3], h4⟩

theorem lookupE_mem {d : List (String × PyVal)} {k : String} {v : PyVal}
    (h : lookupE d k = some v) : (k, v) ∈ d := by
  induction d with
  | nil => cases h
  | cons p rest ih =>
      obtain ⟨k0, v0⟩ := p
      rw [lookupE] at h
      by_cases h0 : k0 = k
      · rw [if_pos h0] at h
        cases h
        subst h0
        exact List.mem_cons_self _ _
      · rw [if_neg h0] at h
        exact List.mem_cons_of_mem _ (ih h)

theorem wfEntries_mem_facts (c : Char) :
    ∀ (d : List (String × PyVal)) (k : String) (v : PyVal),
      wfEntries c d = true → (k, v) ∈ d →
      k ≠ "" ∧ c ∉ k.data ∧ wfValKeys c v = true := by
  intro d
  induction d with
  | nil => intro k v _ hm; cases hm
  | cons p rest ih =>
      intro k v hwf hm
      obtain ⟨k0, v0⟩ := p
      rw [wfEntries] at hwf
      simp only [Bool.and_eq_true] at hwf
      obtain ⟨⟨⟨h1, h2⟩, h3⟩, h4⟩ := hwf
      rcases List.mem_cons.mp hm with heq | hm2
      · injection heq with e1 e2
        subst e1
        subst e2
        refine ⟨by simpa using h1, ?_, h3⟩
        simpa using h2
      · exact ih k v h4 hm2
/-- Induction along the dict spine of a nested mapping: the step case may
assume the motive for the tail and for every dict value of the head. -/
theorem dictSpine_induction (motive : List (String × PyVal) → Prop)
    (h0 : motive [])
    (h1 : ∀ (k : String) (v : PyVal) (rest : List (String × PyVal)),
        motive rest → (∀ d2, v = .dict d2 → motive d2) →
        motive ((k, v) :: rest)) :
    ∀ d, motive d
  | [] => h0
  | (k, PyVal.none) :: rest =>
      h1 k PyVal.none rest (dictSpine_induction motive h0 h1 rest)
        (fun _ hv => nomatch hv)
  | (k, PyVal.str s) :: rest =>
      h1 k (PyVal.str s) rest (dictSpine_induction motive h0 h1 rest)
        (fun _ hv => nomatch hv)
  | (k, PyVal.int n) :: rest =>
      h1 k (PyVal.int n) rest (dictSpine_induction motive h0 h1 rest)
        (fun _ hv => nomatch hv)
  | (k, PyVal.bool b) :: rest =>
      h1 k (PyVal.bool b) rest (dictSpine_induction motive h0 h1 rest)
        (fun _ hv => nomatch hv)
  | (k, PyVal.list xs) :: rest =>
      h1 k (PyVal.list xs) rest (dictSpine_induction motive h0 h1 rest)
        (fun _ hv => nomatch hv)
  | (k, PyVal.dict d2) :: rest =>
      h1 k (PyVal.dict d2) rest (dictSpine_induction motive h0 h1 rest)
        (fun d2' hv => PyVal.dict.inj hv ▸ dictSpine_induction motive h0 h1 d2)
termination_by d => sizeOf d
decreasing_by
  all_goals
    simp only [List.cons.sizeOf_spec, Prod.mk.sizeOf_spec, PyVal.dict.sizeOf_spec]
    omega

theorem flatten_cons_dict (c : Char) (pre k : String)
    (d2 rest : List (String × PyVal)) :
    flatten (String.singleton c) pre ((k, .dict d2) :: rest) =
      flatten (String.singleton c) pre rest ++
        flatten (String.singleton c) (joinKey (String.singleton c) pre k) d2 := rfl

theorem flatten_cons_nondict (c : Char) (pre k : String) (v : PyVal)
    (rest : List (String × PyVal)) (hv : isDictV v = false) :
    flatten (String.singleton c) pre ((k, v) :: rest) =
      flatten (String.singleton c) pre rest ++
        [(joinKey (String.singleton c) pre k,
          flatValue (String.singleton c) (joinKey (String.singleton c) pre k) v)] := by
  cases v with
  | dict d => simp [isDictV] at hv
  | none => rfl
  | str s => rfl
  | int n => rfl
  | bool b => rfl
  | list xs => rfl

/-- Every key of a flattened well-formed mapping decomposes as the joined
key of one of the top-level keys followed by nothing or by the separator
character. -/
theorem flatten_key_shape (c : Char) :
    ∀ (d : List (String × PyVal)) (pre key : String) (v' : PyVal),
      wfEntries c d = true →
      lookupE (flatten (String.singleton c) pre d) key = some v' →
      ∃ (k' : String) (tail : List Char),
        k' ∈ d.map Prod.fst ∧
        key.data = (joinKey (String.singleton c) pre k').data ++ tail ∧
        (tail = [] ∨ ∃ t2, tail = c :: t2) := by
  intro d
  induction d using dictSpine_induction with
  | h0 =>
      intro pre key v' _ hlk
      rw [flatten] at hlk
      cases hlk
  | h1 k v rest ihRest ihNested =>
      intro pre key v' hwf hlk
      rw [wfEntries] at hwf
      simp only [Bool.and_eq_true] at hwf
      obtain ⟨⟨⟨hk1, hk2⟩, hv1⟩, hrest⟩ := hwf
      have hk1' : k ≠ "" := by simpa using hk1
      by_cases hd : isDictV v = true
      · obtain ⟨d2, rfl⟩ : ∃ d2, v = PyVal.dict d2 := by
          cases v <;> simp [isDictV] at hd <;> exact ⟨_, rfl⟩
        rw [flatten_cons_dict, lookupE_append] at hlk
        cases hA : lookupE (flatten (String.singleton c) pre rest) key with
        | some w =>
            rw [hA] at hlk
            obtain ⟨k', tail, hmem, hshape, htail⟩ := ihRest pre key w hrest hA
            exact ⟨k', tail, by simp only [List.map_cons]; exact List.mem_cons_of_mem _ hmem,
              hshape, htail⟩
        | none =>
            rw [hA] at hlk
            simp only [Option.none_or] at hlk
            have hwf2 : wfEntries c d2 = true := by
              rw [wfValKeys] at hv1
              simp only [Bool.and_eq_true] at hv1
              exact hv1.2
            obtain ⟨k2, tail2, hmem2, hshape2, htail2⟩ :=
              ihNested d2 rfl (joinKey (String.singleton c) pre k) key v' hwf2 hlk
            have hpre2 : joinKey (String.singleton c) pre k ≠ "" :=
              joinKey_ne_empty c pre k hk1'
            refine ⟨k, c :: (k2.data ++ tail2), by simp, ?_, Or.inr ⟨_, rfl⟩⟩
            rw [hshape2, joinKey_data c (joinKey (String.singleton c) pre k) k2,
              if_neg hpre2]
            simp [List.append_assoc]
      · rw [flatten_cons_nondict c pre k v rest (by simpa using hd),
          lookupE_append] at hlk
        cases hA : lookupE (flatten (String.singleton c) pre rest) key with
        | some w =>
            rw [hA] at hlk
            obtain ⟨k', tail, hmem, hshape, htail⟩ := ihRest pre key w hrest hA
            exact ⟨k', tail, by simp only [List.map_cons]; exact List.mem_cons_of_mem _ hmem,
              hshape, htail⟩
        | none =>
            rw [hA] at hlk
            simp only [Option.none_or, lookupE] at hlk
            by_cases he : joinKey (String.singleton c) pre k = key
            · refine ⟨k, [], by simp, ?_, Or.inl rfl⟩
              rw [← he]
              simp
            · rw [if_neg he] at hlk
              cases hlk
/-- A key of a mapping occurs with some value. -/
theorem mem_keys_exists {d : List (String × PyVal)} {k : String}
    (h : k ∈ d.map Prod.fst) : ∃ v, (k, v) ∈ d := by
  obtain ⟨⟨ka, va⟩, hpm, hfst⟩ := List.mem_map.mp h
  have hka : ka = k := hfst
  subst hka
  exact ⟨va, hpm⟩

/-- A key whose first segment is not among a well-formed mapping\x27s
top-level keys does not occur in its flattening. -/
theorem not_in_flatten (c : Char) (rest : List (String × PyVal))
    (pre k key : String) (tail : List Char)
    (hwf : wfEntries c rest = true)
    (hnotin : k ∉ rest.map Prod.fst)
    (hk : k ≠ "") (hc : c ∉ k.data)
    (hkey : key.data = (joinKey (String.singleton c) pre k).data ++ tail)
    (htail : tail = [] ∨ ∃ t, tail = c :: t) :
    lookupE (flatten (String.singleton c) pre rest) key = Option.none := by
  cases hA : lookupE (flatten (String.singleton c) pre rest) key with
  | none => rfl
  | some w =>
      exfalso
      obtain ⟨kb, tail', hmem', hshape', htail'⟩ :=
        flatten_key_shape c rest pre key w hwf hA
      obtain ⟨va, hpm⟩ := mem_keys_exists hmem'
      obtain ⟨hkb, hcb, _⟩ := wfEntries_mem_facts c rest kb va hwf hpm
      rw [hkey, joinKey_data, joinKey_data] at hshape'
      by_cases hp : pre = ""
      · rw [if_pos hp, if_pos hp] at hshape'
        obtain ⟨he, _⟩ :=
          charSeg_inj c k.data kb.data tail tail' hc hcb htail htail' hshape'
        exact hnotin (string_data_inj he ▸ hmem')
      · rw [if_neg hp, if_neg hp] at hshape'
        have hshape2 : k.data ++ tail = kb.data ++ tail' := by
          rw [List.append_assoc, List.append_assoc, List.cons_append,
            List.cons_append] at hshape'
          have h2 := List.append_cancel_left hshape'
          simp only [List.cons.injEq] at h2
          exact h2.2
        obtain ⟨he, _⟩ :=
          charSeg_inj c k.data kb.data tail tail' hc hcb htail htail' hshape2
        exact hnotin (string_data_inj he ▸ hmem')

/-- The last step of a path: looking up a non-dict value of a well-formed
mapping finds, in the flattening, exactly the stored
(`flatValue`-transformed) value under the joined key. -/
theorem flatten_lookup_here (c : Char) :
    ∀ (d : List (String × PyVal)) (pre k : String) (v : PyVal),
      wfDict c d = true →
      lookupE d k = some v → isDictV v = false →
      lookupE (flatten (String.singleton c) pre d)
          (joinKey (String.singleton c) pre k) =
        some (flatValue (String.singleton c)
          (joinKey (String.singleton c) pre k) v) := by
  intro d
  induction d with
  | nil => intro pre k v _ hlk _; cases hlk
  | cons p rest ih =>
      intro pre k v hwf hlk hnd
      obtain ⟨k0, v0⟩ := p
      rw [wfDict, distinctKeys, wfEntries] at hwf
      simp only [Bool.and_eq_true] at hwf
      obtain ⟨⟨hdist0, hdist⟩, ⟨⟨hk0, hc0⟩, hv0⟩, hrest⟩ := hwf
      rw [lookupE] at hlk
      by_cases h0 : k0 = k
      · rw [if_pos h0] at hlk
        subst h0
        have hv0v : v0 = v := by injection hlk
        subst hv0v
        have hnone :
            lookupE (flatten (String.singleton c) pre rest)
              (joinKey (String.singleton c) pre k0) = Option.none := by
          refine not_in_flatten c rest pre k0 _ [] hrest ?_ (by simpa using hk0)
            (by simpa using hc0) (by simp) (Or.inl rfl)
          intro hm
          obtain ⟨va, hpm⟩ := mem_keys_exists hm
          rw [Bool.not_eq_true'] at hdist0
          rw [List.any_eq_false] at hdist0
          simpa using hdist0 (k0, va) hpm
        rw [flatten_cons_nondict c pre k0 v0 rest hnd, lookupE_append, hnone,
          Option.none_or, lookupE, if_pos rfl]
      · rw [if_neg h0] at hlk
        have hwfrest : wfDict c rest = true := by
          rw [wfDict]
          simp [hdist, hrest]
        have hrec := ih pre k v hwfrest hlk hnd
        by_cases hd0 : isDictV v0 = true
        · obtain ⟨d2, rfl⟩ : ∃ d2, v0 = PyVal.dict d2 := by
            cases v0 <;> simp [isDictV] at hd0 <;> exact ⟨_, rfl⟩
          rw [flatten_cons_dict, lookupE_append, hrec]
          rfl
        · rw [flatten_cons_nondict c pre k0 v0 rest (by simpa using hd0),
            lookupE_append, hrec]
          rfl
theorem joinKey_ne_empty_pre (c : Char) (pre k : String) (hp : pre ≠ "") :
    joinKey (String.singleton c) pre k ≠ "" := by
  intro h
  rw [str_eq_empty_iff, joinKey_data, if_neg hp] at h
  rcases List.append_eq_nil.mp h with ⟨_, h2⟩
  cases h2

theorem joinAll_cons (sep pre k : String) (path : List String) :
    joinAll sep pre (k :: path) = joinAll sep (joinKey sep pre k) path := rfl

/-- Under a nonempty prefix, the incrementally built key is the prefix,
the separator, and the separator-joined path. -/
theorem joinAll_shape (c : Char) :
    ∀ (path : List String) (pre : String), pre ≠ "" → path ≠ [] →
      (joinAll (String.singleton c) pre path).data =
        pre.data ++ c :: (joinSegs (String.singleton c) path).data := by
  intro path
  induction path with
  | nil => intro pre _ hne; cases hne rfl
  | cons k rest ih =>
      intro pre hp _
      cases rest with
      | nil =>
          show (joinKey (String.singleton c) pre k).data = _
          rw [joinKey_data, if_neg hp, joinSegs]
      | cons k2 rest2 =>
          rw [joinAll_cons]
          rw [ih (joinKey (String.singleton c) pre k)
            (joinKey_ne_empty_pre c pre k hp) (by simp)]
          rw [joinKey_data, if_neg hp]
          show _ = pre.data ++ c :: (k ++ String.singleton c ++
            joinSegs (String.singleton c) (k2 :: rest2)).data
          simp [String.data_append, String.singleton]

/-- From an empty prefix with a nonempty first segment, the incrementally
built key is exactly the separator-joined path. -/
theorem joinAll_empty_prefix (c : Char) (k : String) (path : List String)
    (hk : k ≠ "") :
    joinAll (String.singleton c) "" (k :: path) =
      joinSegs (String.singleton c) (k :: path) := by
  rw [joinAll_cons]
  have hjk : joinKey (String.singleton c) "" k = k := by rw [joinKey, if_pos rfl]
  rw [hjk]
  cases path with
  | nil => rfl
  | cons k2 rest2 =>
      apply string_data_inj
      rw [joinAll_shape c (k2 :: rest2) k hk (by simp)]
      show _ = (k ++ String.singleton c ++
        joinSegs (String.singleton c) (k2 :: rest2)).data
      simp [String.data_append, String.singleton]

/-- The descending step: a path that continues through a dict value is
found in the flattening of that value, with the joined key as the new
prefix. -/
theorem flatten_lookup_there (c : Char) (path2 : List String)
    (hne : path2 ≠ [])
    (hIH : ∀ (d2 : List (String × PyVal)) (pre : String) (v : PyVal),
        wfDict c d2 = true → ValueAt d2 path2 v →
        lookupE (flatten (String.singleton c) pre d2)
            (joinAll (String.singleton c) pre path2) =
          some (flatValue (String.singleton c)
            (joinAll (String.singleton c) pre path2) v)) :
    ∀ (d : List (String × PyVal)) (pre k : String)
      (d2 : List (String × PyVal)) (v : PyVal),
      wfDict c d = true →
      lookupE d k = some (.dict d2) → ValueAt d2 path2 v →
      lookupE (flatten (String.singleton c) pre d)
          (joinAll (String.singleton c) (joinKey (String.singleton c) pre k)
            path2) =
        some (flatValue (String.singleton c)
          (joinAll (String.singleton c) (joinKey (String.singleton c) pre k)
            path2) v) := by
  intro d
  induction d with
  | nil => intro pre k d2 v _ hlk _; cases hlk
  | cons p rest ih =>
      intro pre k d2 v hwf hlk hva
      obtain ⟨k0, v0⟩ := p
      rw [wfDict, distinctKeys, wfEntries] at hwf
      simp only [Bool.and_eq_true] at hwf
      obtain ⟨⟨hdist0, hdist⟩, ⟨⟨hk0, hc0⟩, hv0⟩, hrest⟩ := hwf
      rw [lookupE] at hlk
      by_cases h0 : k0 = k
      · rw [if_pos h0] at hlk
        subst h0
        have hv0v : v0 = PyVal.dict d2 := by injection hlk
        subst hv0v
        have hk0ne : k0 ≠ "" := by simpa using hk0
        have hpre2 : joinKey (String.singleton c) pre k0 ≠ "" :=
          joinKey_ne_empty c pre k0 hk0ne
        have hnone :
            lookupE (flatten (String.singleton c) pre rest)
              (joinAll (String.singleton c)
                (joinKey (String.singleton c) pre k0) path2) = Option.none := by
          refine not_in_flatten c rest pre k0 _
            (c :: (joinSegs (String.singleton c) path2).data) hrest ?_
            hk0ne (by simpa using hc0) ?_ (Or.inr ⟨_, rfl⟩)
          · intro hm
            obtain ⟨va, hpm⟩ := mem_keys_exists hm
            rw [Bool.not_eq_true'] at hdist0
            rw [List.any_eq_false] at hdist0
            simpa using hdist0 (k0, va) hpm
          · exact joinAll_shape c path2 _ hpre2 hne
        rw [flatten_cons_dict, lookupE_append, hnone, Option.none_or]
        have hwf2 : wfDict c d2 = true := by
          rw [wfValKeys] at hv0
          rw [wfDict]
          exact hv0
        exact hIH d2 (joinKey (String.singleton c) pre k0) v hwf2 hva
      · rw [if_neg h0] at hlk
        have hwfrest : wfDict c rest = true := by
          rw [wfDict]
          simp [hdist, hrest]
        have hrec := ih pre k d2 v hwfrest hlk hva
        by_cases hd0 : isDictV v0 = true
        · obtain ⟨dd, rfl⟩ : ∃ dd, v0 = PyVal.dict dd := by
            cases v0 <;> simp [isDictV] at hd0 <;> exact ⟨_, rfl⟩
          rw [flatten_cons_dict, lookupE_append, hrec]
          rfl
        · rw [flatten_cons_nondict c pre k0 v0 rest (by simpa using hd0),
            lookupE_append, hrec]
          rfl

/-- The round-trip over an arbitrary accumulated prefix. -/
theorem flatten_lookup_valueAt (c : Char) :
    ∀ (path : List String) (d : List (String × PyVal)) (pre : String)
      (v : PyVal),
      wfDict c d = true → ValueAt d path v →
      lookupE (flatten (String.singleton c) pre d)
          (joinAll (String.singleton c) pre path) =
        some (flatValue (String.singleton c)
          (joinAll (String.singleton c) pre path) v) := by
  intro path
  induction path with
  | nil => intro d pre v _ hva; nomatch hva
  | cons k path2 ih =>
      intro d pre v hwf hva
      cases path2 with
      | nil =>
          cases hva with
          | here hlk hnd => exact flatten_lookup_here c d pre k v hwf hlk hnd
          | there hlk hva2 => nomatch hva2
      | cons k2 rest2 =>
          cases hva with
          | there hlk hva2 =>
              rw [joinAll_cons]
              exact flatten_lookup_there c (k2 :: rest2) (by simp)
                (fun d2 pre2 v2 hw hv => ih d2 pre2 v2 hw hv)
                d pre k _ v hwf hlk hva2
/-- C7 (amended): for a nested mapping whose dict keys (at every level)
are distinct, nonempty and free of the single-character separator, looking
up a leaf\x27s separator-joined fully-qualified path in the flattening
returns the leaf\x27s stored value: the value itself for scalar leaves,
and for list leaves the list with each dict element flattened
independently (under the list\x27s joined key) while scalar elements are
untouched. As stated — over every nested mapping — the claim fails when a
key contains the separator (see the counterexample). -/
theorem C7_flatten_roundtrip_amended :
    (∀ (c : Char) (d : List (String × PyVal)) (path : List String) (v : PyVal),
        wfDict c d = true → ValueAt d path v →
        lookupE (flatten (String.singleton c) "" d)
            (joinSegs (String.singleton c) path) =
          some (flatValue (String.singleton c)
            (joinSegs (String.singleton c) path) v)) ∧
    (∀ (sep key : String) (v : PyVal),
        isDictV v = false → isListV v = false → flatValue sep key v = v) ∧
    (∀ (sep key : String) (xs : List PyVal),
        flatValue sep key (.list xs) = .list (flatElems sep key xs)) ∧
    (∀ (sep key : String) (d2 : List (String × PyVal)) (xs : List PyVal),
        flatElems sep key (.dict d2 :: xs) =
          .dict (flatten sep key d2) :: flatElems sep key xs) ∧
    (∀ (sep key : String) (x : PyVal) (xs : List PyVal), isDictV x = false →
        flatElems sep key (x :: xs) = x :: flatElems sep key xs) := by
  refine ⟨?_, ?_, ?_, ?_, ?_⟩
  · intro c d path v hwf hva
    obtain ⟨k, rest, rfl, w, hlk⟩ :
        ∃ k rest, path = k :: rest ∧ ∃ w, lookupE d k = some w := by
      cases hva with
      | here hlk hnd => exact ⟨_, _, rfl, _, hlk⟩
      | there hlk hva2 => exact ⟨_, _, rfl, _, hlk⟩
    have hwfE : wfEntries c d = true := by
      have h := hwf
      rw [wfDict] at h
      simp only [Bool.and_eq_true] at h
      exact h.2
    have hk : k ≠ "" :=
      (wfEntries_mem_facts c d k w hwfE (lookupE_mem hlk)).1
    rw [← joinAll_empty_prefix c k rest hk]
    exact flatten_lookup_valueAt c (k :: rest) d "" v hwf hva
  · intro sep key v h1 h2
    cases v with
    | dict d => simp [isDictV] at h1
    | list xs => simp [isListV] at h2
    | none => rfl
    | str s => rfl
    | int n => rfl
    | bool b => rfl
  · intro sep key xs
    rfl
  · intro sep key d2 xs
    rfl
  · intro sep key x xs hx
    cases x with
    | dict d => simp [isDictV] at hx
    | none => rfl
    | str s => rfl
    | int n => rfl
    | bool b => rfl
    | list ys => rfl

/-- Closed instance of the amended C7: the leaf `1` of
`{"a": {"b": 1}}` is recovered at its dotted path `a.b`. -/
theorem C7_flatten_roundtrip_amended_witness :
    lookupE
        (flatten (String.singleton (Char.ofNat 46)) ""
          [("a", PyVal.dict [("b", PyVal.int 1)])])
        (joinSegs (String.singleton (Char.ofNat 46)) ["a", "b"]) =
      some (PyVal.int 1) :=
  C7_flatten_roundtrip_amended.1 (Char.ofNat 46)
    [("a", PyVal.dict [("b", PyVal.int 1)])] ["a", "b"] (PyVal.int 1) rfl
    (ValueAt.there rfl (ValueAt.here rfl rfl))

/-- Counterexample to C7 as stated: in
`{"a": {"b": 1}, "a.b": 2}` the leaf `1` sits at the dict path
`a`/`b`, whose dotted join is `a.b`, but looking up `a.b` in the
flattening returns `2` (the colliding top-level key wins), not the
leaf\x27s original value `1`. -/
theorem C7_flatten_roundtrip_counterexample :
    ValueAt [("a", .dict [("b", .int 1)]), ("a.b", .int 2)] ["a", "b"]
        (.int 1) ∧
    joinSegs "." ["a", "b"] = "a.b" ∧
    lookupE (flatten "." "" [("a", .dict [("b", .int 1)]), ("a.b", .int 2)])
        "a.b" = some (.int 2) ∧
    PyVal.int 2 ≠ PyVal.int 1 := by
  refine ⟨ValueAt.there rfl (ValueAt.here rfl rfl), rfl, rfl, ?_⟩
  intro h
  injection h with h2
  exact absurd h2 (by decide)

end Yapconf
